import Mathlib

/-!
# Open GOP detector (`cli/opengop.c`)

A shallow embedding of `is_idr` and of the two loops of `main` that decide the
verdict (the search for the NAL unit length size in the codec specific data and
the scan over the samples of the video track), with the properties proved about
them.

Conventions of the embedding

* a byte (`uint8_t`) is a `Fin 256`;
* a `uint32_t` is a `Nat`, every operation that can leave the range is followed
  by `% 2 ^ 32`;
* a pointer into the sample buffer is the buffer together with a cursor, a read
  through it is `buf[cursor + i]?` and a read outside the buffer is the
  outcome `fault`;
* `while` loops take an iteration budget (`fuel`): the outcome `out_of_fuel`
  says that the loop was still running when the budget was used up.
* the `fprintf` calls of `is_idr` (`nal_type = %d`) are not modelled.
-/

namespace OpenGop

/-! ## Data model -/

/-- One octet of a buffer (`uint8_t`). -/
abbrev Byte := Fin 256

/-- The NAL unit type of an IDR slice (`#define IDR 5`). -/
def IDR : Nat := 5

/-- Outcome of a run with an iteration budget: the budget ran out, a read left
the buffer, or the code returned `a`. -/
inductive Run (α : Type) where
  | out_of_fuel : Run α
  | fault : Run α
  | ret : α → Run α
deriving DecidableEq

/-- Modelled from the spec: the declaration of `lsmash_sample_t` (lsmash.h) is
not under src/. An access unit sample is a raw byte buffer; the two fields are
the ones `is_idr` reads: `length` (a `uint32_t`) and `data` (`none` is the NULL
pointer). -/
structure lsmash_sample_t where
  length : Nat
  data : Option (List Byte)
deriving DecidableEq

/-! ## `is_idr` -/

/-- The inner `for` loop of `is_idr` (lines 107-111): `k` iterations are left,
`i` is the loop index, `nal_size` the accumulator. Each iteration shifts the
accumulator by 8 bits and adds `data[i]`, in 32-bit unsigned arithmetic. -/
def nal_size_loop (buf : List Byte) (cursor : Nat) : Nat → Nat → Nat → Option Nat
  | 0, _, nal_size => some nal_size
  | k + 1, i, nal_size =>
    match buf[cursor + i]? with
    | none => none
    | some b => nal_size_loop buf cursor k (i + 1) ((((nal_size <<< 8) % 2 ^ 32) + b.val) % 2 ^ 32)

/-- What one pass through the body of the `while` loop does. -/
inductive Step where
  | ret (v : Int)
  | fault
  | next (remaining cursor : Nat)
deriving DecidableEq

/-- The body of the `while` loop of `is_idr` (lines 100-116) at the loop state
`remaining`, `data = buf + cursor`. -/
def is_idr_body (buf : List Byte) (nalu_length_size remaining cursor : Nat) : Step :=
  if remaining ≤ nalu_length_size then Step.ret (-1)
  else
    match buf[cursor + nalu_length_size]? with
    | none => Step.fault
    | some b =>
      if b.val &&& 0x1F = IDR then Step.ret 1
      else
        match nal_size_loop buf cursor nalu_length_size 0 0 with
        | none => Step.fault
        | some n =>
          let nal_size := (n + nalu_length_size) % 2 ^ 32
          if remaining < nal_size then Step.ret (-1)
          else Step.next (remaining - nal_size) (cursor + nal_size)

/-- The `while( remaining )` loop of `is_idr` (lines 98-118) with an iteration
budget. -/
def is_idr_loop (buf : List Byte) (nalu_length_size : Nat) : Nat → Nat → Nat → Run Int
  | 0, _, _ => Run.out_of_fuel
  | fuel + 1, remaining, cursor =>
    if remaining = 0 then Run.ret 0
    else
      match is_idr_body buf nalu_length_size remaining cursor with
      | Step.ret v => Run.ret v
      | Step.fault => Run.fault
      | Step.next r c => is_idr_loop buf nalu_length_size fuel r c

/-- The function `is_idr` (lines 88-119): `-1` malformed, `0` no IDR unit,
`1` an IDR unit was found. `sample = none` is the NULL sample. -/
def is_idr (fuel : Nat) (sample : Option lsmash_sample_t) (nalu_length_size : Nat) : Run Int :=
  match sample with
  | none => Run.ret (-1)
  | some s =>
    match s.data with
    | none => Run.ret (-1)
    | some buf =>
      if s.length ≤ nalu_length_size then Run.ret (-1)
      else is_idr_loop buf nalu_length_size fuel s.length 0

/-- The sample whose buffer is `buf` and whose `length` is the size of the buffer. -/
def sample_of (buf : List Byte) : lsmash_sample_t :=
  { length := buf.length, data := some buf }

/-! ## The NAL unit length size (`main`, lines 189-205) -/

/-- Modelled from the spec: the enumeration `lsmash_codec_specific_format`
(lsmash.h) is not under src/; it is the declared kind of a codec specific
record, "unstructured binary" being one of the kinds. -/
inductive lsmash_codec_specific_format where
  | LSMASH_CODEC_SPECIFIC_FORMAT_UNSPECIFIED
  | LSMASH_CODEC_SPECIFIC_FORMAT_STRUCTURED
  | LSMASH_CODEC_SPECIFIC_FORMAT_UNSTRUCTURED
deriving DecidableEq

/-- Modelled from the spec: the declaration of `lsmash_codec_specific_t`
(lsmash.h) is not under src/. A codec configuration record is its declared kind
and an opaque byte sequence (`data.unstructured`); `size` is the length of that
sequence. -/
structure lsmash_codec_specific_t where
  format : lsmash_codec_specific_format
  unstructured : List Byte
deriving DecidableEq

/-- The field `size` of a record: the number of bytes of its data. -/
def lsmash_codec_specific_t.size (cs : lsmash_codec_specific_t) : Nat :=
  cs.unstructured.length

/-- One iteration of the `for` loop over the codec specific data (lines
193-201): `cs` is what `lsmash_get_codec_specific_data( summary, i )` returned
(`none` is NULL), the result is the new value of `nalu_length_size`. -/
def nalu_length_size_step (nalu_length_size : Nat) (cs : Option lsmash_codec_specific_t) : Nat :=
  match cs with
  | none => nalu_length_size
  | some c =>
    if c.format = lsmash_codec_specific_format.LSMASH_CODEC_SPECIFIC_FORMAT_UNSTRUCTURED then
      if h : c.unstructured.length > 12 then
        if (c.unstructured[4]).val = 'a'.toNat ∧
           (c.unstructured[5]).val = 'v'.toNat ∧
           (c.unstructured[6]).val = 'c'.toNat ∧
           (c.unstructured[7]).val = 'C'.toNat then
          ((c.unstructured[12]).val &&& 0x03) + 1
        else nalu_length_size
      else nalu_length_size
    else nalu_length_size

/-- The `for` loop of lines 190-202, started at `nalu_length_size = 0`, over the
records `1 .. count` in order. -/
def nalu_length_size_scan (records : List (Option lsmash_codec_specific_t)) : Nat :=
  records.foldl nalu_length_size_step 0

/-- How lines 189-205 end: `return OPENGOP_ERR( message )`, or the scan goes on
with the value found for `nalu_length_size`. -/
inductive Resolved where
  | error (message : String)
  | ok (nalu_length_size : Nat)
deriving DecidableEq

/-- Lines 189-205 of `main`: the NAL unit length size of the track, or the
message of `OPENGOP_ERR` when none was found. -/
def resolve (records : List (Option lsmash_codec_specific_t)) : Resolved :=
  if nalu_length_size_scan records = 0 then
    Resolved.error "Failed to get nal unit length size.\n"
  else Resolved.ok (nalu_length_size_scan records)

/-! ## The scan of the video track (`main`, lines 213-252) -/

/-- Modelled from the spec: `lsmash_media_ts_t` (lsmash.h) is not under src/;
one entry of the timestamp list. -/
structure lsmash_media_ts_t where
  dts : Nat := 0
  cts : Nat := 0
deriving DecidableEq

/-- Modelled from the spec: `lsmash_media_ts_list_t` (lsmash.h) is not under
src/; `timestamp = none` is the NULL array. -/
structure lsmash_media_ts_list_t where
  sample_count : Nat
  timestamp : Option (List lsmash_media_ts_t)
deriving DecidableEq

/-- Modelled from the spec: what the external timeline collaborator knows about
one sample of the track: its timestamps, the sync sample flag
(`ra_flags & ISOM_SAMPLE_RANDOM_ACCESS_FLAG_SYNC`), and what fetching the sample
gives (`none`: the sample is unavailable, NULL). -/
structure timeline_sample_t where
  ts : lsmash_media_ts_t := {}
  sync : Bool
  sample : Option lsmash_sample_t
deriving DecidableEq

/-- A video track: its samples, sample number `i` (from 1) at position `i - 1`. -/
abbrev Track := List timeline_sample_t

/-- Modelled from the spec: `lsmash_get_media_timestamps` (timeline code of the
library) is not under src/. The list has one entry for each sample; for a track
with zero samples there is no array (`timestamp` is NULL), which is the case
`main` reports as "Video track does not have any frames.". -/
def lsmash_get_media_timestamps (track : Track) : lsmash_media_ts_list_t :=
  { sample_count := track.length,
    timestamp := if track.length = 0 then none else some (track.map (fun s => s.ts)) }

/-- Modelled from the spec: `lsmash_get_sample_property_from_media_timeline` is
not under src/; the result is the sync sample flag of sample number `i`. -/
def lsmash_get_sample_property_from_media_timeline (track : Track) (i : Nat) : Bool :=
  if i = 0 then false
  else
    match track[i - 1]? with
    | some s => s.sync
    | none => false

/-- Modelled from the spec: `lsmash_get_sample_from_media_timeline` is not under
src/; the bytes of sample number `i`, NULL when they are unavailable or the
number is out of range. -/
def lsmash_get_sample_from_media_timeline (track : Track) (i : Nat) : Option lsmash_sample_t :=
  if i = 0 then none
  else
    match track[i - 1]? with
    | some s => s.sample
    | none => none

/-- How the scan of the track ends. -/
inductive Verdict where
  /-- `OPENGOP_ERR( "Video track does not have any frames.\n" )` -/
  | NoFrames
  /-- `OPENGOP_DONE( "Video contains Open GOP(s).\n" )` -/
  | OpenGop
  /-- the loop ran to its end: "Video does not contain an Open GOP.\n" -/
  | ClosedGop
deriving DecidableEq

/-- The message printed with the verdict. -/
def Verdict.message : Verdict → String
  | Verdict.NoFrames => "Video track does not have any frames.\n"
  | Verdict.OpenGop => "Video contains Open GOP(s).\n"
  | Verdict.ClosedGop => "Video does not contain an Open GOP.\n"

/-- The value `main` returns with the verdict. -/
def Verdict.exit_code : Verdict → Int
  | Verdict.NoFrames => -1
  | Verdict.OpenGop => 0
  | Verdict.ClosedGop => 0

/-- What is observed of a scan: the verdict, the sample numbers that were
fetched and passed to `is_idr` ("Frame %d is a keyframe. Checking if IDR? "),
in order, and the sample numbers reported with "Failed to read frame %d.". -/
structure ScanResult where
  verdict : Verdict
  fetched : List Nat
  failed : List Nat
deriving DecidableEq

/-- The `for` loop of lines 220-244: `n` iterations are left, `i` is the sample
number, `fetched` and `failed` are the log so far. -/
def scan_loop (fuel : Nat) (track : Track) (nalu_length_size : Nat) :
    Nat → Nat → List Nat → List Nat → Run ScanResult
  | 0, _, fetched, failed => Run.ret ⟨Verdict.ClosedGop, fetched, failed⟩
  | n + 1, i, fetched, failed =>
    if lsmash_get_sample_property_from_media_timeline track i then
      match is_idr fuel (lsmash_get_sample_from_media_timeline track i) nalu_length_size with
      | Run.out_of_fuel => Run.out_of_fuel
      | Run.fault => Run.fault
      | Run.ret r =>
        if r = -1 then
          scan_loop fuel track nalu_length_size n (i + 1) (fetched ++ [i]) (failed ++ [i])
        else if r = 0 then
          Run.ret ⟨Verdict.OpenGop, fetched ++ [i], failed⟩
        else
          scan_loop fuel track nalu_length_size n (i + 1) (fetched ++ [i]) failed
    else scan_loop fuel track nalu_length_size n (i + 1) fetched failed

/-- Lines 213-252 of `main` for the video track `track`; `fuel` is the iteration
budget of each call of `is_idr`. -/
def scan (fuel : Nat) (track : Track) (nalu_length_size : Nat) : Run ScanResult :=
  let ts_list := lsmash_get_media_timestamps track
  match ts_list.timestamp with
  | none => Run.ret ⟨Verdict.NoFrames, [], []⟩
  | some _ => scan_loop fuel track nalu_length_size ts_list.sample_count 1 [] []

/-! ## Notions used in the statements -/

/-- The loop state (`remaining`, `cursor`) at the `k`-th evaluation of the
condition of the `while` loop of `is_idr`, counted from 0, for a sample of
`length` bytes; `none` when the function has returned before. -/
def loop_head (buf : List Byte) (nalu_length_size length : Nat) : Nat → Option (Nat × Nat)
  | 0 => some (length, 0)
  | k + 1 =>
    match loop_head buf nalu_length_size length k with
    | none => none
    | some (remaining, cursor) =>
      if remaining = 0 then none
      else
        match is_idr_body buf nalu_length_size remaining cursor with
        | Step.next r c => some (r, c)
        | _ => none

/-- The unsigned big-endian value of a sequence of bytes. -/
def be_value (bs : List Byte) : Nat :=
  bs.foldl (fun acc b => acc * 256 + b.val) 0

/-- The bytes of the length field of the NAL unit that starts at offset `off`:
the `nalu_length_size` bytes from `off` on. -/
def length_field (nalu_length_size : Nat) (buf : List Byte) (off : Nat) : List Byte :=
  (buf.drop off).take nalu_length_size

/-- The total size the NAL unit at offset `off` declares: the big-endian value
of its length field plus the size of the length field. -/
def declared_total (nalu_length_size : Nat) (buf : List Byte) (off : Nat) : Nat :=
  be_value (length_field nalu_length_size buf off) + nalu_length_size

/-- The type of the NAL unit at offset `off`: the low five bits of its first
payload byte, `none` when that byte is not in the buffer. -/
def nal_type_at (nalu_length_size : Nat) (buf : List Byte) (off : Nat) : Option Nat :=
  (buf[off + nalu_length_size]?).map (fun b => b.val &&& 0x1F)

/-- The offset of the `k`-th NAL unit (from 0) reached by following the declared
lengths from offset 0: a unit is followed when its length field is in the
buffer and the total size it declares is within the bytes that remain. -/
def unit_offset (nalu_length_size : Nat) (buf : List Byte) : Nat → Option Nat
  | 0 => some 0
  | k + 1 =>
    match unit_offset nalu_length_size buf k with
    | none => none
    | some off =>
      if off + nalu_length_size ≤ buf.length ∧
          declared_total nalu_length_size buf off ≤ buf.length - off then
        some (off + declared_total nalu_length_size buf off)
      else none

/-- A NAL unit as it is written in an access unit: the bytes of its length
field and its payload. -/
structure NalUnit where
  field : List Byte
  payload : List Byte
deriving DecidableEq

/-- The bytes of a NAL unit: the length field, then the payload. -/
def NalUnit.bytes (u : NalUnit) : List Byte := u.field ++ u.payload

/-- The type of a NAL unit: the low five bits of the first payload byte. -/
def NalUnit.nal_type (u : NalUnit) : Option Nat :=
  u.payload.head?.map (fun b => b.val &&& 0x1F)

/-- A well-formed unit: a length field of `nalu_length_size` bytes whose
big-endian value is the length of the payload, and a non-empty payload. -/
def NalUnit.well_formed (nalu_length_size : Nat) (u : NalUnit) : Prop :=
  u.field.length = nalu_length_size ∧ be_value u.field = u.payload.length ∧ u.payload ≠ []

/-- The access unit made of the given NAL units, one after the other. -/
def access_unit (units : List NalUnit) : List Byte :=
  (units.map NalUnit.bytes).flatten

/-- The record carries the tag of the AVC configuration box: bytes 4..7 are
`a`, `v`, `c`, `C`. -/
def has_avcC_tag (cs : lsmash_codec_specific_t) : Prop :=
  (cs.unstructured[4]?).map Fin.val = some 'a'.toNat ∧
  (cs.unstructured[5]?).map Fin.val = some 'v'.toNat ∧
  (cs.unstructured[6]?).map Fin.val = some 'c'.toNat ∧
  (cs.unstructured[7]?).map Fin.val = some 'C'.toNat

/-- A matching record: it is present, its format is unstructured, its size is
greater than 12 (at least 13 bytes) and it carries the tag `avcC`. -/
def is_avcC_record : Option lsmash_codec_specific_t → Prop
  | none => False
  | some cs =>
    cs.format = lsmash_codec_specific_format.LSMASH_CODEC_SPECIFIC_FORMAT_UNSTRUCTURED ∧
    12 < cs.size ∧ has_avcC_tag cs

instance is_avcC_record_decidable : DecidablePred is_avcC_record := fun r =>
  match r with
  | none => isFalse (fun h => h)
  | some cs => by
    unfold is_avcC_record has_avcC_tag
    infer_instance

/-- The loop of the scan seen on the list of the samples that are left: `i` is
the number of the first of them. -/
def scan_list (fuel : Nat) (nalu_length_size : Nat) :
    List timeline_sample_t → Nat → List Nat → List Nat → Run ScanResult
  | [], _, fetched, failed => Run.ret ⟨Verdict.ClosedGop, fetched, failed⟩
  | s :: rest, i, fetched, failed =>
    if s.sync then
      match is_idr fuel s.sample nalu_length_size with
      | Run.out_of_fuel => Run.out_of_fuel
      | Run.fault => Run.fault
      | Run.ret r =>
        if r = -1 then
          scan_list fuel nalu_length_size rest (i + 1) (fetched ++ [i]) (failed ++ [i])
        else if r = 0 then
          Run.ret ⟨Verdict.OpenGop, fetched ++ [i], failed⟩
        else
          scan_list fuel nalu_length_size rest (i + 1) (fetched ++ [i]) failed
    else scan_list fuel nalu_length_size rest (i + 1) fetched failed

/-- The numbers of the samples of the list that are flagged as sync samples, `i`
being the number of the first sample of the list. -/
def sync_numbers : List timeline_sample_t → Nat → List Nat
  | [], _ => []
  | s :: rest, i => if s.sync then i :: sync_numbers rest (i + 1) else sync_numbers rest (i + 1)

/-- The numbers of the sync samples of the list on which `is_idr` returns -1. -/
def malformed_numbers (fuel : Nat) (nalu_length_size : Nat) : List timeline_sample_t → Nat → List Nat
  | [], _ => []
  | s :: rest, i =>
    if s.sync = true ∧ is_idr fuel s.sample nalu_length_size = Run.ret (-1) then
      i :: malformed_numbers fuel nalu_length_size rest (i + 1)
    else malformed_numbers fuel nalu_length_size rest (i + 1)

/-- The sample is classified by `is_idr` as an IDR picture (1) or as malformed
(-1). -/
def idr_or_malformed (fuel : Nat) (nalu_length_size : Nat) (s : timeline_sample_t) : Prop :=
  is_idr fuel s.sample nalu_length_size = Run.ret 1 ∨
  is_idr fuel s.sample nalu_length_size = Run.ret (-1)

/-- The scan ends with the verdict OpenGop and the last sample it fetched and
passed to `is_idr` ("Frame %d is a keyframe. Checking if IDR? not IDR") is
sample number `i`. -/
def reports_open_gop_at (out : Run ScanResult) (i : Nat) : Prop :=
  ∃ r, out = Run.ret r ∧ r.verdict = Verdict.OpenGop ∧ r.fetched.getLast? = some i

/-! ## Properties of `is_idr` -/

/-- The inner loop reads `k` bytes from `cursor + i` on: it succeeds when they
are inside the buffer. -/
theorem nal_size_loop_some (buf : List Byte) (cursor k i acc : Nat)
    (h : cursor + i + k ≤ buf.length) :
    ∃ n, nal_size_loop buf cursor k i acc = some n := by
  induction k generalizing i acc with
  | zero => exact ⟨acc, rfl⟩
  | succ k ih =>
    have hlt : cursor + i < buf.length := by omega
    simp only [nal_size_loop, List.getElem?_eq_getElem hlt]
    exact ih (i + 1) _ (by omega)

/-- A pass through the body never reads outside the buffer when the bytes from
the cursor on are `remaining` many. -/
theorem is_idr_body_no_fault (buf : List Byte) (nls remaining cursor : Nat)
    (h : cursor + remaining = buf.length) :
    is_idr_body buf nls remaining cursor ≠ Step.fault := by
  unfold is_idr_body
  split
  · simp
  · rename_i hrem
    have hlt : cursor + nls < buf.length := by omega
    obtain ⟨n, hn⟩ := nal_size_loop_some buf cursor nls 0 0 (by omega)
    simp only [List.getElem?_eq_getElem hlt, hn]
    split
    · simp
    · split <;> simp

/-- A pass through the body that goes on keeps `cursor + remaining`. -/
theorem is_idr_body_next (buf : List Byte) (nls remaining cursor r c : Nat)
    (h : is_idr_body buf nls remaining cursor = Step.next r c) :
    c + r = cursor + remaining := by
  unfold is_idr_body at h
  split at h
  · simp at h
  · split at h
    · simp at h
    · split at h
      · simp at h
      · split at h
        · simp at h
        · simp only at h
          split at h
          · simp at h
          · simp only [Step.next.injEq] at h
            omega

/-- The loop never reads outside the buffer. -/
theorem is_idr_loop_no_fault (buf : List Byte) (nls fuel remaining cursor : Nat)
    (h : cursor + remaining = buf.length) :
    is_idr_loop buf nls fuel remaining cursor ≠ Run.fault := by
  induction fuel generalizing remaining cursor with
  | zero => simp [is_idr_loop]
  | succ fuel ih =>
    unfold is_idr_loop
    split
    · simp
    · have hb := is_idr_body_no_fault buf nls remaining cursor h
      split
      · simp
      · rename_i hf
        exact absurd hf hb
      · rename_i r c hn
        exact ih r c (by have := is_idr_body_next buf nls remaining cursor r c hn; omega)

/-- The invariant of the loop: at every loop head `cursor + remaining` is the
length of the sample. -/
theorem loop_head_inv (buf : List Byte) (nls length k remaining cursor : Nat)
    (h : loop_head buf nls length k = some (remaining, cursor)) :
    cursor + remaining = length := by
  induction k generalizing remaining cursor with
  | zero =>
    simp only [loop_head, Option.some.injEq, Prod.mk.injEq] at h
    omega
  | succ k ih =>
    simp only [loop_head] at h
    split at h
    · simp at h
    · rename_i r0 c0 hk
      split at h
      · simp at h
      · split at h
        · rename_i r c hn
          simp only [Option.some.injEq, Prod.mk.injEq] at h
          have h1 := ih r0 c0 hk
          have h2 := is_idr_body_next buf nls r0 c0 r c hn
          omega
        · simp at h

/-- C10: for a sample whose data buffer holds exactly `length` bytes and a
length size in 1..4, at every loop head `cursor + remaining = length`, the type
byte at `cursor + nalu_length_size` is inside the buffer once the guard
`remaining <= nalu_length_size` has been passed, no pass through the body reads
outside the buffer, and so `is_idr` never reaches an out-of-range read, whatever
the iteration budget and also when the 32-bit addition wraps. -/
theorem is_idr_reads_in_bounds (s : lsmash_sample_t) (buf : List Byte) (nls : Nat)
    (hdata : s.data = some buf) (hlen : buf.length = s.length) (hnls : 1 ≤ nls ∧ nls ≤ 4) :
    (∀ k remaining cursor, loop_head buf nls s.length k = some (remaining, cursor) →
        cursor + remaining = s.length ∧
        (nls < remaining → cursor + nls < buf.length) ∧
        is_idr_body buf nls remaining cursor ≠ Step.fault) ∧
    (∀ fuel, is_idr fuel (some s) nls ≠ Run.fault) := by
  have _ := hnls
  constructor
  · intro k remaining cursor hk
    have hinv := loop_head_inv buf nls s.length k remaining cursor hk
    refine ⟨hinv, fun h => by omega, ?_⟩
    exact is_idr_body_no_fault buf nls remaining cursor (by omega)
  · intro fuel
    simp only [is_idr, hdata]
    split
    · simp
    · exact is_idr_loop_no_fault buf nls fuel s.length 0 (by omega)

/-- The loop of C10 at a sample whose first length field wraps: the walk goes
on one byte further and stays inside the buffer. -/
theorem is_idr_reads_in_bounds_witness :
    loop_head [0xFF, 0xFF, 0xFF, 0xFD, 0, 0x65] 4 6 1 = some (5, 1) ∧
    is_idr 7 (some (sample_of [0xFF, 0xFF, 0xFF, 0xFD, 0, 0x65])) 4 ≠ Run.fault :=
  ⟨by decide,
   (is_idr_reads_in_bounds (sample_of [0xFF, 0xFF, 0xFF, 0xFD, 0, 0x65])
      [0xFF, 0xFF, 0xFF, 0xFD, 0, 0x65] 4 rfl rfl (by decide)).2 7⟩

/-- C4: when the byte at offset `nalu_length_size` (the first payload byte of
the first NAL unit) has its low five bits equal to 5, `is_idr` returns 1,
whatever the length field says and whatever follows. -/
theorem is_idr_first_unit_idr (nls : Nat) (buf : List Byte) (b : Byte) (fuel : Nat)
    (hnls : 1 ≤ nls ∧ nls ≤ 4) (hlen : nls < buf.length) (hb : buf[nls]? = some b)
    (htype : b.val &&& 0x1F = 5) (hfuel : 0 < fuel) :
    is_idr fuel (some (sample_of buf)) nls = Run.ret 1 := by
  have _ := hnls
  obtain ⟨f, rfl⟩ : ∃ f, fuel = f + 1 := ⟨fuel - 1, by omega⟩
  have h1 : ¬ buf.length ≤ nls := by omega
  have h2 : ¬ buf.length = 0 := by omega
  simp [is_idr, sample_of, is_idr_loop, is_idr_body, h1, h2, hb, htype, IDR]

/-- Scenario D of the spec: the bytes 00 00 00 02 65 AB with length size 4. -/
theorem is_idr_first_unit_idr_witness :
    is_idr 1 (some (sample_of [0x00, 0x00, 0x00, 0x02, 0x65, 0xAB])) 4 = Run.ret 1 :=
  is_idr_first_unit_idr 4 [0x00, 0x00, 0x00, 0x02, 0x65, 0xAB] 0x65 1
    (by decide) (by decide) (by decide) (by decide) (by decide)

/-- C9, at the sample FF FF FF FC 00 with length size 4: the length field plus 4
is 0 modulo 2^32, so the pass through the body leaves `remaining = 5` and the
cursor where they were, and `is_idr` is still running after any number of
iterations. -/
theorem is_idr_wrapped_nal_size_never_returns :
    is_idr_body [0xFF, 0xFF, 0xFF, 0xFC, 0] 4 5 0 = Step.next 5 0 ∧
    ∀ fuel, is_idr fuel (some (sample_of [0xFF, 0xFF, 0xFF, 0xFC, 0])) 4 = Run.out_of_fuel := by
  have hbody : is_idr_body [0xFF, 0xFF, 0xFF, 0xFC, 0] 4 5 0 = Step.next 5 0 := by decide
  refine ⟨hbody, fun fuel => ?_⟩
  have hloop : ∀ f, is_idr_loop [0xFF, 0xFF, 0xFF, 0xFC, 0] 4 f 5 0 = Run.out_of_fuel := by
    intro f
    induction f with
    | zero => rfl
    | succ f ih =>
      unfold is_idr_loop
      simp only [hbody]
      simpa using ih
  simpa [is_idr, sample_of] using hloop fuel

/-! ### The length field -/

theorem be_fold_mod (bs : List Byte) (a a' : Nat) (h : a % 2 ^ 32 = a' % 2 ^ 32) :
    bs.foldl (fun acc b => acc * 256 + b.val) a % 2 ^ 32
      = bs.foldl (fun acc b => acc * 256 + b.val) a' % 2 ^ 32 := by
  induction bs generalizing a a' with
  | nil => simpa using h
  | cons b bs ih =>
    simp only [List.foldl_cons]
    apply ih
    norm_num at h ⊢
    omega

theorem be_fold_bound (bs : List Byte) (a : Nat) :
    bs.foldl (fun acc b => acc * 256 + b.val) a + 1 ≤ (a + 1) * 256 ^ bs.length := by
  induction bs generalizing a with
  | nil => simp
  | cons b bs ih =>
    simp only [List.foldl_cons, List.length_cons]
    have h1 := ih (a * 256 + b.val)
    have hb : b.val < 256 := b.isLt
    have h2 : (a * 256 + b.val + 1) * 256 ^ bs.length ≤ ((a + 1) * 256) * 256 ^ bs.length :=
      Nat.mul_le_mul_right _ (by omega)
    calc _ ≤ (a * 256 + b.val + 1) * 256 ^ bs.length := h1
      _ ≤ ((a + 1) * 256) * 256 ^ bs.length := h2
      _ = (a + 1) * 256 ^ (bs.length + 1) := by ring

/-- A field of at most four bytes has a value below 2^32. -/
theorem be_value_lt (bs : List Byte) (h : bs.length ≤ 4) : be_value bs < 2 ^ 32 := by
  have h1 := be_fold_bound bs 0
  have h2 : 256 ^ bs.length ≤ 256 ^ 4 := Nat.pow_le_pow_right (by decide) h
  unfold be_value
  norm_num at h1 h2 ⊢
  omega

/-- The inner loop computes the big-endian value of the bytes it reads, modulo
2^32. -/
theorem nal_size_loop_eq (buf : List Byte) (cursor k i acc : Nat)
    (h : cursor + i + k ≤ buf.length) (hacc : acc < 2 ^ 32) :
    nal_size_loop buf cursor k i acc
      = some (((buf.drop (cursor + i)).take k).foldl (fun a b => a * 256 + b.val) acc % 2 ^ 32) := by
  induction k generalizing i acc with
  | zero =>
    have hm : acc % 2 ^ 32 = acc := Nat.mod_eq_of_lt hacc
    simp only [nal_size_loop, List.take_zero, List.foldl_nil, hm]
  | succ k ih =>
    have hlt : cursor + i < buf.length := by omega
    simp only [nal_size_loop, List.getElem?_eq_getElem hlt]
    rw [ih (i + 1) _ (by omega) (Nat.mod_lt _ (by decide))]
    rw [List.drop_eq_getElem_cons hlt, List.take_succ_cons, List.foldl_cons]
    congr 1
    rw [show cursor + (i + 1) = cursor + i + 1 by omega]
    apply be_fold_mod
    rw [Nat.shiftLeft_eq]
    norm_num

/-- With a length size of at most 4 the inner loop yields the value of the
length field at the cursor. -/
theorem nal_size_loop_field (buf : List Byte) (nls cursor : Nat) (hnls : nls ≤ 4)
    (h : cursor + nls ≤ buf.length) :
    nal_size_loop buf cursor nls 0 0 = some (be_value (length_field nls buf cursor)) := by
  rw [nal_size_loop_eq buf cursor nls 0 0 (by omega) (by decide)]
  have hlen : (length_field nls buf cursor).length ≤ 4 := by
    simp only [length_field, List.length_take]
    omega
  have := be_value_lt _ hlen
  simp only [Nat.add_zero]
  rw [Nat.mod_eq_of_lt]
  · rfl
  · exact this

/-! ### One pass through the body, in terms of the unit at the cursor -/

/-- A unit of type 5 at the cursor: the body returns 1. -/
theorem is_idr_body_idr (buf : List Byte) (nls remaining cursor : Nat)
    (hrem : nls < remaining) (htype : nal_type_at nls buf cursor = some 5) :
    is_idr_body buf nls remaining cursor = Step.ret 1 := by
  unfold nal_type_at at htype
  cases hb : buf[cursor + nls]? with
  | none => simp [hb] at htype
  | some b =>
    simp only [hb, Option.map_some', Option.some.injEq] at htype
    simp [is_idr_body, Nat.not_le.mpr hrem, hb, htype, IDR]

/-- A unit of another type at the cursor, whose declared total size does not
wrap: the body compares that size with `remaining` and skips the unit. -/
theorem is_idr_body_skip (buf : List Byte) (nls remaining cursor : Nat) (hnls : nls ≤ 4)
    (hinv : cursor + remaining = buf.length) (hrem : nls < remaining)
    (htype : nal_type_at nls buf cursor ≠ some 5)
    (hwrap : declared_total nls buf cursor < 2 ^ 32) :
    is_idr_body buf nls remaining cursor
      = if remaining < declared_total nls buf cursor then Step.ret (-1)
        else Step.next (remaining - declared_total nls buf cursor)
               (cursor + declared_total nls buf cursor) := by
  have hlt : cursor + nls < buf.length := by omega
  have hb : buf[cursor + nls]? = some buf[cursor + nls] := List.getElem?_eq_getElem hlt
  have hne : ¬ ((buf[cursor + nls]).val &&& 0x1F = IDR) := by
    intro h5
    apply htype
    simp only [nal_type_at, hb, Option.map_some', Option.some.injEq]
    exact h5
  have hfield := nal_size_loop_field buf nls cursor hnls (by omega)
  unfold is_idr_body
  simp only [Nat.not_le.mpr hrem, if_false, hb, hne, hfield]
  have hm : (be_value (length_field nls buf cursor) + nls) % 2 ^ 32
      = declared_total nls buf cursor := Nat.mod_eq_of_lt hwrap
  simp only [hm]

/-- The values `is_idr` can return. -/
theorem is_idr_body_ret (buf : List Byte) (nls remaining cursor : Nat) (v : Int)
    (h : is_idr_body buf nls remaining cursor = Step.ret v) : v = -1 ∨ v = 1 := by
  unfold is_idr_body at h
  split at h
  · simp only [Step.ret.injEq] at h; omega
  · split at h
    · simp at h
    · split at h
      · simp only [Step.ret.injEq] at h; omega
      · split at h
        · simp at h
        · simp only at h
          split at h
          · simp only [Step.ret.injEq] at h; omega
          · simp at h

theorem is_idr_loop_ret (buf : List Byte) (nls fuel remaining cursor : Nat) (v : Int)
    (h : is_idr_loop buf nls fuel remaining cursor = Run.ret v) : v = -1 ∨ v = 0 ∨ v = 1 := by
  induction fuel generalizing remaining cursor with
  | zero => simp [is_idr_loop] at h
  | succ fuel ih =>
    unfold is_idr_loop at h
    split at h
    · simp only [Run.ret.injEq] at h; omega
    · split at h
      · rename_i w hw
        simp only [Run.ret.injEq] at h
        have := is_idr_body_ret buf nls remaining cursor w hw
        omega
      · simp at h
      · exact ih _ _ h

/-- `is_idr` returns -1, 0 or 1. -/
theorem is_idr_ret (fuel : Nat) (sample : Option lsmash_sample_t) (nls : Nat) (v : Int)
    (h : is_idr fuel sample nls = Run.ret v) : v = -1 ∨ v = 0 ∨ v = 1 := by
  unfold is_idr at h
  split at h
  · simp only [Run.ret.injEq] at h; omega
  · split at h
    · simp only [Run.ret.injEq] at h; omega
    · split at h
      · simp only [Run.ret.injEq] at h; omega
      · exact is_idr_loop_ret _ _ _ _ _ v h

/-! ### Well-formed access units -/

theorem access_unit_cons (u : NalUnit) (us : List NalUnit) :
    access_unit (u :: us) = u.field ++ (u.payload ++ access_unit us) := by
  simp [access_unit, NalUnit.bytes]

theorem length_field_first (nls : Nat) (pre rest : List Byte) (u : NalUnit)
    (hf : u.field.length = nls) :
    length_field nls (pre ++ (u.field ++ rest)) pre.length = u.field := by
  unfold length_field
  rw [List.drop_left, ← hf, List.take_left]

theorem nal_type_at_first (nls : Nat) (pre rest : List Byte) (u : NalUnit)
    (hf : u.field.length = nls) (hp : u.payload ≠ []) :
    nal_type_at nls (pre ++ (u.field ++ (u.payload ++ rest))) pre.length = u.nal_type := by
  unfold nal_type_at NalUnit.nal_type
  congr 1
  rw [List.getElem?_append_right (by omega), ← hf]
  rw [List.getElem?_append_right (by omega)]
  cases hpl : u.payload with
  | nil => exact absurd hpl hp
  | cons b bs => simp

/-- The walk over the units of a well-formed access unit that starts at the
cursor: 1 when one of them has type 5, else 0. -/
theorem is_idr_loop_access_unit (nls : Nat) (hnls : 1 ≤ nls ∧ nls ≤ 4) (units : List NalUnit)
    (hwf : ∀ u ∈ units, u.well_formed nls) (pre : List Byte) (fuel : Nat)
    (h32 : (pre ++ access_unit units).length < 2 ^ 32)
    (hfuel : (access_unit units).length < fuel) :
    is_idr_loop (pre ++ access_unit units) nls fuel (access_unit units).length pre.length
      = Run.ret (if units.any (fun u => decide (u.nal_type = some 5)) then 1 else 0) := by
  induction units generalizing pre fuel with
  | nil =>
    obtain ⟨f, rfl⟩ : ∃ f, fuel = f + 1 := ⟨fuel - 1, by omega⟩
    simp [access_unit, is_idr_loop]
  | cons u us ih =>
    obtain ⟨f, rfl⟩ : ∃ f, fuel = f + 1 := ⟨fuel - 1, by omega⟩
    obtain ⟨hf, hv, hp⟩ := hwf u (List.mem_cons_self _ _)
    have hpl : 0 < u.payload.length := List.length_pos.mpr hp
    have hlen : (access_unit (u :: us)).length
        = nls + (u.payload.length + (access_unit us).length) := by
      rw [access_unit_cons]
      simp only [List.length_append, hf]
    have htot : (pre ++ access_unit (u :: us)).length
        = pre.length + (access_unit (u :: us)).length := List.length_append _ _
    have hrem0 : ¬ (access_unit (u :: us)).length = 0 := by omega
    have htype : nal_type_at nls (pre ++ access_unit (u :: us)) pre.length = u.nal_type := by
      rw [access_unit_cons]
      exact nal_type_at_first nls pre _ u hf hp
    unfold is_idr_loop
    simp only [hrem0, if_false]
    by_cases h5 : u.nal_type = some 5
    · rw [is_idr_body_idr _ _ _ _ (by omega) (by rw [htype]; exact h5)]
      simp [h5]
    · have hdecl : declared_total nls (pre ++ access_unit (u :: us)) pre.length
          = u.payload.length + nls := by
        unfold declared_total
        rw [access_unit_cons, length_field_first nls pre _ u hf, hv]
      rw [is_idr_body_skip _ nls _ _ hnls.2 (by omega) (by omega)
        (by rw [htype]; exact h5) (by omega)]
      have hfit : ¬ (access_unit (u :: us)).length
          < declared_total nls (pre ++ access_unit (u :: us)) pre.length := by omega
      simp only [hfit, if_false]
      have e1 : (access_unit (u :: us)).length
          - declared_total nls (pre ++ access_unit (u :: us)) pre.length
          = (access_unit us).length := by omega
      have e2 : pre.length + declared_total nls (pre ++ access_unit (u :: us)) pre.length
          = (pre ++ u.bytes).length := by
        simp only [NalUnit.bytes, List.length_append, hf]
        omega
      have hbuf : pre ++ access_unit (u :: us) = (pre ++ u.bytes) ++ access_unit us := by
        rw [access_unit_cons]
        simp [NalUnit.bytes]
      rw [e1, e2, hbuf]
      rw [ih (fun w hw => hwf w (List.mem_cons_of_mem _ hw)) (pre ++ u.bytes) f
        (by rw [← hbuf]; exact h32) (by omega)]
      simp [h5]

/-- C3: on a well-formed access unit (fewer than 2^32 bytes, the concatenation
of one or more NAL units, each a `nalu_length_size`-byte big-endian length field
followed by a non-empty payload of that length), with a length size in 1..4,
`is_idr` returns 1 if some unit has type 5, wherever it sits, returns 0 if every
unit has another type, and never returns -1; an iteration budget above the
number of bytes is enough. -/
theorem is_idr_well_formed_access_unit (nls : Nat) (units : List NalUnit) (fuel : Nat)
    (hnls : 1 ≤ nls ∧ nls ≤ 4) (hne : units ≠ [])
    (hwf : ∀ u ∈ units, u.well_formed nls)
    (h32 : (access_unit units).length < 2 ^ 32)
    (hfuel : (access_unit units).length < fuel) :
    ((∃ u ∈ units, u.nal_type = some 5) →
        is_idr fuel (some (sample_of (access_unit units))) nls = Run.ret 1) ∧
    ((∀ u ∈ units, u.nal_type ≠ some 5) →
        is_idr fuel (some (sample_of (access_unit units))) nls = Run.ret 0) ∧
    is_idr fuel (some (sample_of (access_unit units))) nls ≠ Run.ret (-1) := by
  have hloop := is_idr_loop_access_unit nls hnls units hwf [] fuel (by simpa using h32) hfuel
  simp only [List.nil_append, List.length_nil] at hloop
  have hlong : ¬ (access_unit units).length ≤ nls := by
    cases units with
    | nil => exact absurd rfl hne
    | cons u us =>
      obtain ⟨hf, -, hp⟩ := hwf u (List.mem_cons_self _ _)
      have hpl : 0 < u.payload.length := List.length_pos.mpr hp
      rw [access_unit_cons]
      simp only [List.length_append, hf]
      omega
  have hrun : is_idr fuel (some (sample_of (access_unit units))) nls
      = Run.ret (if units.any (fun u => decide (u.nal_type = some 5)) then 1 else 0) := by
    simp only [is_idr, sample_of, hlong, if_false]
    exact hloop
  rw [hrun]
  refine ⟨?_, ?_, ?_⟩
  · rintro ⟨u, hu, h5⟩
    have : units.any (fun u => decide (u.nal_type = some 5)) = true :=
      List.any_eq_true.mpr ⟨u, hu, by simp [h5]⟩
    simp [this]
  · intro hall
    have : units.any (fun u => decide (u.nal_type = some 5)) = false := by
      rw [Bool.eq_false_iff]
      intro h
      obtain ⟨u, hu, h5⟩ := List.any_eq_true.mp h
      exact hall u hu (by simpa using h5)
    simp [this]
  · split <;> simp

/-- The units of C3 written out: a sequence parameter set unit and an IDR slice
after it, with length size 4. -/
theorem is_idr_well_formed_access_unit_witness :
    access_unit [⟨[0, 0, 0, 1], [0x67]⟩, ⟨[0, 0, 0, 2], [0x65, 0xAB]⟩]
        = [0, 0, 0, 1, 0x67, 0, 0, 0, 2, 0x65, 0xAB] ∧
    is_idr 12 (some (sample_of
        (access_unit [⟨[0, 0, 0, 1], [0x67]⟩, ⟨[0, 0, 0, 2], [0x65, 0xAB]⟩]))) 4 = Run.ret 1 :=
  ⟨by decide,
   (is_idr_well_formed_access_unit 4 [⟨[0, 0, 0, 1], [0x67]⟩, ⟨[0, 0, 0, 2], [0x65, 0xAB]⟩] 12
      (by decide) (by simp)
      (by
        intro u hu
        simp only [List.mem_cons, List.mem_singleton, List.not_mem_nil, or_false] at hu
        rcases hu with rfl | rfl
        · exact ⟨rfl, by decide, by simp⟩
        · exact ⟨rfl, by decide, by simp⟩)
      (by decide) (by decide)).1
     ⟨⟨[0, 0, 0, 2], [0x65, 0xAB]⟩, by simp, by decide⟩⟩

/-! ### Declared sizes that run past the end of the buffer -/

/-- The walk of `is_idr` follows the units reached from offset 0 as long as none
of them has type 5: either it has returned -1 on the way, or after `m` passes
the loop is at the unit. -/
theorem is_idr_loop_follows (nls : Nat) (buf : List Byte) (hnls : 1 ≤ nls ∧ nls ≤ 4)
    (h32 : buf.length < 2 ^ 32) (k off : Nat) (hk : unit_offset nls buf k = some off)
    (htypes : ∀ j, j < k → (unit_offset nls buf j).bind (nal_type_at nls buf) ≠ some 5) :
    off ≤ buf.length ∧
    ((∀ fuel, buf.length < fuel → is_idr_loop buf nls fuel buf.length 0 = Run.ret (-1)) ∨
     (∃ m, m ≤ off ∧ ∀ fuel, is_idr_loop buf nls (fuel + m) buf.length 0
        = is_idr_loop buf nls fuel (buf.length - off) off)) := by
  induction k generalizing off with
  | zero =>
    simp only [unit_offset, Option.some.injEq] at hk
    subst hk
    exact ⟨Nat.zero_le _, Or.inr ⟨0, Nat.le_refl _, fun fuel => rfl⟩⟩
  | succ k ih =>
    simp only [unit_offset] at hk
    cases ho : unit_offset nls buf k with
    | none => simp [ho] at hk
    | some o =>
      simp only [ho] at hk
      split at hk
      · rename_i hcond
        obtain ⟨hread, hfit⟩ := hcond
        simp only [Option.some.injEq] at hk
        obtain ⟨hle, hcase⟩ := ih o ho (fun j hj => htypes j (by omega))
        refine ⟨by omega, ?_⟩
        rcases hcase with hA | ⟨m, hm, hB⟩
        · exact Or.inl hA
        · have hd : nls ≤ declared_total nls buf o := by
            unfold declared_total
            omega
          by_cases hrem : buf.length - o ≤ nls
          · left
            intro fuel hfuel
            obtain ⟨f, rfl⟩ : ∃ f, fuel = (f + 1) + m := ⟨fuel - m - 1, by omega⟩
            rw [hB (f + 1)]
            have h0 : ¬ buf.length - o = 0 := by omega
            simp [is_idr_loop, is_idr_body, h0, hrem]
          · right
            have hty : nal_type_at nls buf o ≠ some 5 := by
              have := htypes k (by omega)
              simpa [ho] using this
            have hbody := is_idr_body_skip buf nls (buf.length - o) o hnls.2 (by omega)
              (by omega) hty (by omega)
            have hnot : ¬ buf.length - o < declared_total nls buf o := by omega
            simp only [hnot, if_false] at hbody
            refine ⟨m + 1, by omega, fun fuel => ?_⟩
            have h0 : ¬ buf.length - o = 0 := by omega
            rw [show fuel + (m + 1) = (fuel + 1) + m by omega, hB (fuel + 1)]
            conv_lhs => unfold is_idr_loop
            simp only [h0, if_false, hbody]
            rw [← hk]
            congr 1
            omega
      · simp at hk

/-- C1 as amended: with a length size in 1..4 and a buffer of fewer than 2^32
bytes, when the `k`-th unit reached by following the declared lengths from
offset 0 declares a total size greater than the bytes that remain from its
start, none of the units up to and including it has type 5, and that total size
is below 2^32, `is_idr` returns -1; an iteration budget above the number of
bytes is enough. -/
theorem is_idr_declared_size_past_end (nls : Nat) (buf : List Byte) (k off fuel : Nat)
    (hnls : 1 ≤ nls ∧ nls ≤ 4) (h32 : buf.length < 2 ^ 32)
    (hk : unit_offset nls buf k = some off) (hread : off + nls ≤ buf.length)
    (hpast : buf.length - off < declared_total nls buf off)
    (htypes : ∀ j, j ≤ k → (unit_offset nls buf j).bind (nal_type_at nls buf) ≠ some 5)
    (hwrap : declared_total nls buf off < 2 ^ 32)
    (hfuel : buf.length < fuel) :
    is_idr fuel (some (sample_of buf)) nls = Run.ret (-1) := by
  have hloop : is_idr_loop buf nls fuel buf.length 0 = Run.ret (-1) := by
    obtain ⟨-, hcase⟩ := is_idr_loop_follows nls buf hnls h32 k off hk
      (fun j hj => htypes j (by omega))
    rcases hcase with hA | ⟨m, hm, hB⟩
    · exact hA fuel hfuel
    · obtain ⟨f, rfl⟩ : ∃ f, fuel = (f + 1) + m := ⟨fuel - m - 1, by omega⟩
      rw [hB (f + 1)]
      have h0 : ¬ buf.length - off = 0 := by omega
      by_cases hrem : buf.length - off ≤ nls
      · simp [is_idr_loop, is_idr_body, h0, hrem]
      · have hty : nal_type_at nls buf off ≠ some 5 := by
          have := htypes k (Nat.le_refl _)
          simpa [hk] using this
        have hbody := is_idr_body_skip buf nls (buf.length - off) off hnls.2 (by omega)
          (by omega) hty hwrap
        simp only [hpast, if_true] at hbody
        unfold is_idr_loop
        simp only [h0, if_false, hbody]
  simp only [is_idr, sample_of]
  split
  · rfl
  · exact hloop

/-- The amended C1 at a buffer of two units: the second one, at offset 5,
declares 9 + 4 bytes where 5 remain. -/
theorem is_idr_declared_size_past_end_witness :
    unit_offset 4 [0, 0, 0, 1, 0x41, 0, 0, 0, 9, 0x41] 1 = some 5 ∧
    declared_total 4 [0, 0, 0, 1, 0x41, 0, 0, 0, 9, 0x41] 5 = 13 ∧
    is_idr 11 (some (sample_of [0, 0, 0, 1, 0x41, 0, 0, 0, 9, 0x41])) 4 = Run.ret (-1) :=
  ⟨by decide, by decide,
   is_idr_declared_size_past_end 4 [0, 0, 0, 1, 0x41, 0, 0, 0, 9, 0x41] 1 5 11
     (by decide) (by decide) (by decide) (by decide) (by decide) (by decide) (by decide)
     (by decide)⟩

/-- C1 as stated fails at the bytes 00 00 00 09 65 with length size 4: the first
unit declares 9 + 4 = 13 bytes where 5 remain, and `is_idr` returns 1, since the
type of the unit is looked at before its length. -/
theorem is_idr_declared_size_past_end_idr :
    unit_offset 4 [0, 0, 0, 9, 0x65] 0 = some 0 ∧
    declared_total 4 [0, 0, 0, 9, 0x65] 0 = 13 ∧
    [0, 0, 0, 9, (0x65 : Byte)].length - 0 = 5 ∧
    is_idr 6 (some (sample_of [0, 0, 0, 9, 0x65])) 4 = Run.ret 1 ∧
    is_idr 6 (some (sample_of [0, 0, 0, 9, 0x65])) 4 ≠ Run.ret (-1) := by
  decide

/-! ### Termination when the size of a unit cannot wrap -/

/-- A field of at most three bytes has a value below 2^24. -/
theorem be_value_lt_of_short (bs : List Byte) (h : bs.length ≤ 3) : be_value bs < 2 ^ 24 := by
  have h1 := be_fold_bound bs 0
  have h2 : 256 ^ bs.length ≤ 256 ^ 3 := Nat.pow_le_pow_right (by decide) h
  unfold be_value
  norm_num at h1 h2 ⊢
  omega

/-- With a length size in 1..3 a pass through the body that goes on strictly
decreases `remaining`. -/
theorem is_idr_body_decreases (buf : List Byte) (nls remaining cursor r c : Nat)
    (hnls : 1 ≤ nls ∧ nls ≤ 3) (hinv : cursor + remaining = buf.length)
    (h : is_idr_body buf nls remaining cursor = Step.next r c) : r < remaining := by
  have hv : be_value (length_field nls buf cursor) < 2 ^ 24 := by
    apply be_value_lt_of_short
    simp only [length_field, List.length_take]
    omega
  unfold is_idr_body at h
  split at h
  · simp at h
  · rename_i hrem
    rw [nal_size_loop_field buf nls cursor (by omega) (by omega)] at h
    split at h
    · simp at h
    · split at h
      · simp at h
      · simp only at h
        split at h
        · simp at h
        · simp only [Step.next.injEq] at h
          norm_num at hv
          omega

/-- With a length size in 1..3 the loop of `is_idr` returns within `remaining`
passes through the body. -/
theorem is_idr_loop_returns (buf : List Byte) (nls fuel remaining cursor : Nat)
    (hnls : 1 ≤ nls ∧ nls ≤ 3) (hinv : cursor + remaining = buf.length)
    (hfuel : remaining < fuel) :
    ∃ v, is_idr_loop buf nls fuel remaining cursor = Run.ret v := by
  induction fuel generalizing remaining cursor with
  | zero => omega
  | succ fuel ih =>
    unfold is_idr_loop
    split
    · exact ⟨0, rfl⟩
    · split
      · rename_i v _
        exact ⟨v, rfl⟩
      · rename_i hf
        exact absurd hf (is_idr_body_no_fault buf nls remaining cursor hinv)
      · rename_i r c hn
        have h1 := is_idr_body_decreases buf nls remaining cursor r c hnls hinv hn
        have h2 := is_idr_body_next buf nls remaining cursor r c hn
        exact ih r c (by omega) (by omega)

/-! ## Properties of the search for the NAL unit length size -/

/-- A record that does not match leaves `nalu_length_size` as it is. -/
theorem nalu_length_size_step_of_not_match (acc : Nat) (r : Option lsmash_codec_specific_t)
    (h : ¬ is_avcC_record r) : nalu_length_size_step acc r = acc := by
  cases r with
  | none => rfl
  | some cs =>
    unfold nalu_length_size_step
    simp only
    split
    · rename_i hfmt
      split
      · rename_i hsize
        split
        · rename_i htag
          exfalso
          apply h
          refine ⟨hfmt, hsize, ?_⟩
          obtain ⟨h4, h5, h6, h7⟩ := htag
          unfold has_avcC_tag
          rw [List.getElem?_eq_getElem (by omega), List.getElem?_eq_getElem (by omega),
            List.getElem?_eq_getElem (by omega), List.getElem?_eq_getElem (by omega)]
          simp only [Option.map_some', Option.some.injEq]
          exact ⟨h4, h5, h6, h7⟩
        · rfl
      · rfl
    · rfl

/-- A matching record sets `nalu_length_size` from the low two bits of its
byte 12. -/
theorem nalu_length_size_step_of_match (cs : lsmash_codec_specific_t)
    (h : is_avcC_record (some cs)) :
    ∃ b, cs.unstructured[12]? = some b ∧
      ∀ acc, nalu_length_size_step acc (some cs) = (b.val &&& 0x03) + 1 := by
  obtain ⟨hfmt, hsize, h4, h5, h6, h7⟩ := h
  have hlen : cs.unstructured.length > 12 := hsize
  refine ⟨cs.unstructured[12], List.getElem?_eq_getElem (by omega), fun acc => ?_⟩
  rw [List.getElem?_eq_getElem (by omega)] at h4 h5 h6 h7
  simp only [Option.map_some', Option.some.injEq] at h4 h5 h6 h7
  unfold nalu_length_size_step
  simp only [hfmt, hlen, if_true, dif_pos, h4, h5, h6, h7, and_self]

theorem nalu_length_size_foldl_of_no_match (l : List (Option lsmash_codec_specific_t))
    (acc : Nat) (h : ∀ r ∈ l, ¬ is_avcC_record r) :
    l.foldl nalu_length_size_step acc = acc := by
  induction l generalizing acc with
  | nil => rfl
  | cons r l ih =>
    rw [List.foldl_cons, nalu_length_size_step_of_not_match acc r (h r (List.mem_cons_self _ _))]
    exact ih acc (fun x hx => h x (List.mem_cons_of_mem _ hx))

theorem nalu_length_size_foldl_eq_zero (l : List (Option lsmash_codec_specific_t))
    (acc : Nat) :
    l.foldl nalu_length_size_step acc = 0 ↔ acc = 0 ∧ ∀ r ∈ l, ¬ is_avcC_record r := by
  induction l generalizing acc with
  | nil => simp
  | cons r l ih =>
    rw [List.foldl_cons, ih]
    by_cases hm : is_avcC_record r
    · cases r with
      | none => exact absurd hm (fun h => h)
      | some cs =>
        obtain ⟨b, -, hstep⟩ := nalu_length_size_step_of_match cs hm
        rw [hstep acc]
        constructor
        · rintro ⟨h0, -⟩
          omega
        · rintro ⟨-, hall⟩
          exact absurd hm (hall _ (List.mem_cons_self _ _))
    · rw [nalu_length_size_step_of_not_match acc r hm]
      constructor
      · rintro ⟨h0, hall⟩
        refine ⟨h0, fun x hx => ?_⟩
        rcases List.mem_cons.mp hx with rfl | hx
        · exact hm
        · exact hall x hx
      · rintro ⟨h0, hall⟩
        exact ⟨h0, fun x hx => hall x (List.mem_cons_of_mem _ hx)⟩

theorem nalu_length_size_foldl_filter (l : List (Option lsmash_codec_specific_t)) (acc : Nat) :
    (l.filter (fun r => decide (is_avcC_record r))).foldl nalu_length_size_step acc
      = l.foldl nalu_length_size_step acc := by
  induction l generalizing acc with
  | nil => rfl
  | cons r l ih =>
    by_cases hm : is_avcC_record r
    · rw [List.filter_cons_of_pos (by simpa using hm), List.foldl_cons, List.foldl_cons, ih]
    · rw [List.filter_cons_of_neg (by simpa using hm), List.foldl_cons,
        nalu_length_size_step_of_not_match acc r hm, ih]

/-- C6: when the sequence of records has a matching record, `resolve` yields
`(b & 0x03) + 1` for the byte `b` at offset 12 of the last matching record; the
value is in 1..4, it is 4 when the low two bits of `b` are 11 and 1 when they
are 00, and the records that do not match have no influence: `resolve` gives the
same on the matching records alone. -/
theorem resolve_last_matching_record (pre post : List (Option lsmash_codec_specific_t))
    (cs : lsmash_codec_specific_t) (hmatch : is_avcC_record (some cs))
    (hpost : ∀ r ∈ post, ¬ is_avcC_record r) :
    ∃ b, cs.unstructured[12]? = some b ∧
      resolve (pre ++ some cs :: post) = Resolved.ok ((b.val &&& 0x03) + 1) ∧
      1 ≤ (b.val &&& 0x03) + 1 ∧ (b.val &&& 0x03) + 1 ≤ 4 ∧
      (b.val &&& 0x03 = 3 → resolve (pre ++ some cs :: post) = Resolved.ok 4) ∧
      (b.val &&& 0x03 = 0 → resolve (pre ++ some cs :: post) = Resolved.ok 1) ∧
      resolve ((pre ++ some cs :: post).filter (fun r => decide (is_avcC_record r)))
        = resolve (pre ++ some cs :: post) := by
  obtain ⟨b, hb, hstep⟩ := nalu_length_size_step_of_match cs hmatch
  have hscan : nalu_length_size_scan (pre ++ some cs :: post) = (b.val &&& 0x03) + 1 := by
    unfold nalu_length_size_scan
    rw [List.foldl_append, List.foldl_cons, hstep,
      nalu_length_size_foldl_of_no_match post _ hpost]
  have hres : resolve (pre ++ some cs :: post) = Resolved.ok ((b.val &&& 0x03) + 1) := by
    unfold resolve
    rw [hscan]
    simp
  have hle : b.val &&& 0x03 ≤ 3 := Nat.and_le_right
  refine ⟨b, hb, hres, by omega, by omega, ?_, ?_, ?_⟩
  · intro h3
    rw [hres, h3]
  · intro h0
    rw [hres, h0]
  · unfold resolve nalu_length_size_scan
    rw [nalu_length_size_foldl_filter]

/-- C6 at a sequence with two `avcC` records and a NULL entry: the last matching
record, whose byte 12 is FC, decides. -/
theorem resolve_last_matching_record_witness :
    resolve [some ⟨lsmash_codec_specific_format.LSMASH_CODEC_SPECIFIC_FORMAT_UNSTRUCTURED,
        [0, 0, 0, 20, 0x61, 0x76, 0x63, 0x43, 1, 100, 0, 31, 0xFF]⟩,
      some ⟨lsmash_codec_specific_format.LSMASH_CODEC_SPECIFIC_FORMAT_UNSTRUCTURED,
        [0, 0, 0, 20, 0x61, 0x76, 0x63, 0x43, 1, 100, 0, 31, 0xFC]⟩,
      none] = Resolved.ok 1 := by
  obtain ⟨b, hb, hres, -⟩ := resolve_last_matching_record
    [some ⟨lsmash_codec_specific_format.LSMASH_CODEC_SPECIFIC_FORMAT_UNSTRUCTURED,
        [0, 0, 0, 20, 0x61, 0x76, 0x63, 0x43, 1, 100, 0, 31, 0xFF]⟩]
    [none]
    ⟨lsmash_codec_specific_format.LSMASH_CODEC_SPECIFIC_FORMAT_UNSTRUCTURED,
        [0, 0, 0, 20, 0x61, 0x76, 0x63, 0x43, 1, 100, 0, 31, 0xFC]⟩
    (by decide) (by decide)
  simp only [List.getElem?_cons_succ, List.getElem?_cons_zero, Option.some.injEq] at hb
  subst hb
  exact hres

/-- C7: `resolve` fails with "Failed to get nal unit length size." if and only if
no record of the sequence matches (present, unstructured, at least 13 bytes, tag
`avcC` at bytes 4..7); it fails on the empty sequence and on every sequence
whose tagged records are all 12 bytes or shorter, and it yields a size when a
record matches. -/
theorem resolve_fails_iff_no_match (records : List (Option lsmash_codec_specific_t)) :
    (resolve records = Resolved.error "Failed to get nal unit length size.\n"
        ↔ ∀ r ∈ records, ¬ is_avcC_record r) ∧
    resolve [] = Resolved.error "Failed to get nal unit length size.\n" ∧
    ((∀ cs, some cs ∈ records → has_avcC_tag cs → cs.size ≤ 12) →
        resolve records = Resolved.error "Failed to get nal unit length size.\n") ∧
    ((∃ r ∈ records, is_avcC_record r) → ∃ n, resolve records = Resolved.ok n) := by
  have hiff : resolve records = Resolved.error "Failed to get nal unit length size.\n"
      ↔ ∀ r ∈ records, ¬ is_avcC_record r := by
    have hz := nalu_length_size_foldl_eq_zero records 0
    unfold resolve nalu_length_size_scan
    constructor
    · intro h
      split at h
      · rename_i h0
        exact (hz.mp h0).2
      · simp at h
    · intro h
      rw [if_pos (hz.mpr ⟨rfl, h⟩)]
  refine ⟨hiff, by decide, ?_, ?_⟩
  · intro hshort
    apply hiff.mpr
    intro r hr hm
    cases r with
    | none => exact hm
    | some cs =>
      obtain ⟨-, hsize, htag⟩ := hm
      have := hshort cs hr htag
      omega
  · rintro ⟨r, hr, hm⟩
    unfold resolve
    split
    · rename_i h0
      exact absurd hm (((nalu_length_size_foldl_eq_zero records 0).mp h0).2 r hr)
    · exact ⟨_, rfl⟩

/-! ## Properties of the scan -/

theorem get_sample_property_at (pre rest : List timeline_sample_t) (s : timeline_sample_t) :
    lsmash_get_sample_property_from_media_timeline (pre ++ s :: rest) (pre.length + 1)
      = s.sync := by
  have h : (pre ++ s :: rest)[pre.length]? = some s := by
    rw [List.getElem?_append_right (Nat.le_refl _)]
    simp
  simp only [lsmash_get_sample_property_from_media_timeline, Nat.add_sub_cancel, h]
  simp

theorem get_sample_at (pre rest : List timeline_sample_t) (s : timeline_sample_t) :
    lsmash_get_sample_from_media_timeline (pre ++ s :: rest) (pre.length + 1) = s.sample := by
  have h : (pre ++ s :: rest)[pre.length]? = some s := by
    rw [List.getElem?_append_right (Nat.le_refl _)]
    simp
  simp only [lsmash_get_sample_from_media_timeline, Nat.add_sub_cancel, h]
  simp

/-- The loop over the sample numbers is the loop over the list of samples. -/
theorem scan_loop_eq_scan_list (fuel nls : Nat) (l pre : List timeline_sample_t)
    (fetched failed : List Nat) :
    scan_loop fuel (pre ++ l) nls l.length (pre.length + 1) fetched failed
      = scan_list fuel nls l (pre.length + 1) fetched failed := by
  induction l generalizing pre fetched failed with
  | nil => simp [scan_loop, scan_list]
  | cons s rest ih =>
    have hnext : ∀ fe fa, scan_loop fuel (pre ++ s :: rest) nls rest.length (pre.length + 1 + 1)
        fe fa = scan_list fuel nls rest (pre.length + 1 + 1) fe fa := by
      intro fe fa
      have := ih (pre ++ [s]) fe fa
      simpa using this
    simp only [List.length_cons, scan_loop, scan_list, get_sample_property_at, get_sample_at,
      hnext]

/-- The scan of a track that has samples is the loop over its samples. -/
theorem scan_eq_scan_list (fuel nls : Nat) (track : Track) (h : track ≠ []) :
    scan fuel track nls = scan_list fuel nls track 1 [] [] := by
  have hlen : ¬ track.length = 0 := by
    intro h0
    exact h (List.length_eq_zero.mp h0)
  have := scan_loop_eq_scan_list fuel nls track [] [] []
  simp only [List.nil_append, List.length_nil, Nat.zero_add] at this
  simp only [scan, lsmash_get_media_timestamps, hlen, if_false]
  exact this

/-- Over samples whose sync samples are all classified 1 or -1 the loop only
extends its log. -/
theorem scan_list_skip (fuel nls : Nat) (l rest : List timeline_sample_t)
    (h : ∀ p ∈ l, p.sync = true → idr_or_malformed fuel nls p) (i : Nat)
    (fetched failed : List Nat) :
    scan_list fuel nls (l ++ rest) i fetched failed
      = scan_list fuel nls rest (i + l.length) (fetched ++ sync_numbers l i)
          (failed ++ malformed_numbers fuel nls l i) := by
  induction l generalizing i fetched failed with
  | nil => simp [sync_numbers, malformed_numbers]
  | cons s l ih =>
    have hl : ∀ p ∈ l, p.sync = true → idr_or_malformed fuel nls p :=
      fun p hp => h p (List.mem_cons_of_mem _ hp)
    have hidx : i + (s :: l).length = i + 1 + l.length := by
      simp only [List.length_cons]
      omega
    rw [hidx, List.cons_append]
    by_cases hs : s.sync = true
    · rcases h s (List.mem_cons_self _ _) hs with h1 | hm
      · simp [scan_list, hs, h1, sync_numbers, malformed_numbers, ih hl]
      · simp [scan_list, hs, hm, sync_numbers, malformed_numbers, ih hl]
    · simp [scan_list, hs, sync_numbers, malformed_numbers, ih hl]

/-- What a scan that returns has seen: either it ran to the end over sync
samples classified 1 or -1, or it stopped at a sync sample classified 0 after
such samples. -/
theorem scan_list_ret (fuel nls : Nat) (l : List timeline_sample_t) (i : Nat)
    (fetched failed : List Nat) (r : ScanResult)
    (h : scan_list fuel nls l i fetched failed = Run.ret r) :
    (r.verdict = Verdict.ClosedGop ∧ ∀ p ∈ l, p.sync = true → idr_or_malformed fuel nls p) ∨
    (r.verdict = Verdict.OpenGop ∧ ∃ l1 s l2, l = l1 ++ s :: l2 ∧ s.sync = true ∧
      is_idr fuel s.sample nls = Run.ret 0 ∧
      ∀ p ∈ l1, p.sync = true → idr_or_malformed fuel nls p) := by
  induction l generalizing i fetched failed with
  | nil =>
    simp only [scan_list, Run.ret.injEq] at h
    left
    subst h
    exact ⟨rfl, fun p hp => absurd hp (List.not_mem_nil p)⟩
  | cons s l ih =>
    have lift : ∀ (ok : s.sync = true → idr_or_malformed fuel nls s) (i' : Nat)
        (fe fa : List Nat), scan_list fuel nls l i' fe fa = Run.ret r →
        (r.verdict = Verdict.ClosedGop ∧
          ∀ p ∈ s :: l, p.sync = true → idr_or_malformed fuel nls p) ∨
        (r.verdict = Verdict.OpenGop ∧ ∃ l1 s' l2, s :: l = l1 ++ s' :: l2 ∧ s'.sync = true ∧
          is_idr fuel s'.sample nls = Run.ret 0 ∧
          ∀ p ∈ l1, p.sync = true → idr_or_malformed fuel nls p) := by
      intro ok i' fe fa h'
      rcases ih i' fe fa h' with ⟨hv, hall⟩ | ⟨hv, l1, s', l2, hl, hs', h0, hall⟩
      · left
        refine ⟨hv, fun p hp => ?_⟩
        rcases List.mem_cons.mp hp with rfl | hp
        · exact ok
        · exact hall p hp
      · right
        refine ⟨hv, s :: l1, s', l2, by rw [hl]; rfl, hs', h0, fun p hp => ?_⟩
        rcases List.mem_cons.mp hp with rfl | hp
        · exact ok
        · exact hall p hp
    by_cases hs : s.sync = true
    · simp only [scan_list, hs, if_true] at h
      cases hrun : is_idr fuel s.sample nls with
      | out_of_fuel => simp [hrun] at h
      | fault => simp [hrun] at h
      | ret v =>
        simp only [hrun] at h
        rcases is_idr_ret fuel s.sample nls v hrun with rfl | rfl | rfl
        · have h' : scan_list fuel nls l (i + 1) (fetched ++ [i]) (failed ++ [i])
              = Run.ret r := by simpa using h
          exact lift (fun _ => Or.inr hrun) _ _ _ h'
        · have h' : (⟨Verdict.OpenGop, fetched ++ [i], failed⟩ : ScanResult) = r := by
            simpa using h
          right
          subst h'
          exact ⟨rfl, [], s, l, rfl, hs, hrun, fun p hp => absurd hp (List.not_mem_nil p)⟩
        · have h' : scan_list fuel nls l (i + 1) (fetched ++ [i]) failed = Run.ret r := by
            simpa using h
          exact lift (fun _ => Or.inl hrun) _ _ _ h'
    · simp only [scan_list, hs] at h
      exact lift (fun hs' => absurd hs' hs) _ _ _ h

/-- The log of a scan that runs to the end. -/
theorem scan_list_closed (fuel nls : Nat) (l : List timeline_sample_t)
    (h : ∀ p ∈ l, p.sync = true → idr_or_malformed fuel nls p) (i : Nat)
    (fetched failed : List Nat) :
    scan_list fuel nls l i fetched failed
      = Run.ret ⟨Verdict.ClosedGop, fetched ++ sync_numbers l i,
          failed ++ malformed_numbers fuel nls l i⟩ := by
  have := scan_list_skip fuel nls l [] h i fetched failed
  simpa [scan_list] using this

/-- The log of a scan that stops at the sample `s`. -/
theorem scan_list_open (fuel nls : Nat) (l1 l2 : List timeline_sample_t) (s : timeline_sample_t)
    (h : ∀ p ∈ l1, p.sync = true → idr_or_malformed fuel nls p) (hs : s.sync = true)
    (h0 : is_idr fuel s.sample nls = Run.ret 0) (i : Nat) (fetched failed : List Nat) :
    scan_list fuel nls (l1 ++ s :: l2) i fetched failed
      = Run.ret ⟨Verdict.OpenGop, fetched ++ sync_numbers l1 i ++ [i + l1.length],
          failed ++ malformed_numbers fuel nls l1 i⟩ := by
  rw [scan_list_skip fuel nls l1 (s :: l2) h]
  simp [scan_list, hs, h0]

theorem sync_numbers_bound (l : List timeline_sample_t) (i j : Nat)
    (h : j ∈ sync_numbers l i) : i ≤ j ∧ j < i + l.length := by
  induction l generalizing i with
  | nil => simp [sync_numbers] at h
  | cons s l ih =>
    simp only [sync_numbers] at h
    simp only [List.length_cons]
    split at h
    · rcases List.mem_cons.mp h with rfl | h
      · omega
      · have := ih (i + 1) h
        omega
    · have := ih (i + 1) h
      omega

/-- The scan of the track without samples. -/
theorem scan_nil (fuel nls : Nat) :
    scan fuel [] nls = Run.ret ⟨Verdict.NoFrames, [], []⟩ := by
  simp [scan, lsmash_get_media_timestamps]

/-- C8: for a video track with zero samples the scan ends with "Video track
does not have any frames." and the value -1; it reports neither ClosedGop
("Video does not contain an Open GOP.") nor OpenGop, and fetches no sample. -/
theorem scan_zero_samples (fuel nls : Nat) (track : Track) (h : track.length = 0) :
    scan fuel track nls = Run.ret ⟨Verdict.NoFrames, [], []⟩ ∧
    Verdict.NoFrames.message = "Video track does not have any frames.\n" ∧
    Verdict.NoFrames.exit_code = -1 ∧
    ∀ r, scan fuel track nls = Run.ret r →
      r.verdict ≠ Verdict.ClosedGop ∧ r.verdict ≠ Verdict.OpenGop ∧
      r.verdict.message ≠ "Video does not contain an Open GOP.\n" ∧
      r.verdict.message ≠ "Video contains Open GOP(s).\n" := by
  have hscan : scan fuel track nls = Run.ret ⟨Verdict.NoFrames, [], []⟩ := by
    simp [scan, lsmash_get_media_timestamps, h]
  refine ⟨hscan, rfl, rfl, fun r hr => ?_⟩
  rw [hscan] at hr
  simp only [Run.ret.injEq] at hr
  subst hr
  refine ⟨by decide, by decide, by decide, by decide⟩

/-- The track without samples. -/
theorem scan_zero_samples_witness :
    scan 8 [] 4 = Run.ret ⟨Verdict.NoFrames, [], []⟩ :=
  (scan_zero_samples 8 4 [] rfl).1

/-- C2 as stated fails at a track of two sync samples, the first unavailable
(NULL) and the second with a length field that runs past the end of its five
bytes: `is_idr` returns -1 on both, neither is classified as an IDR picture, and
the scan ends with ClosedGop after logging both as failed. -/
theorem scan_closed_gop_with_unreadable_samples :
    is_idr 8 none 4 = Run.ret (-1) ∧
    is_idr 8 (some (sample_of [0, 0, 0, 9, 0x41])) 4 = Run.ret (-1) ∧
    scan 8 [⟨{}, true, none⟩, ⟨{}, true, some (sample_of [0, 0, 0, 9, 0x41])⟩] 4
      = Run.ret ⟨Verdict.ClosedGop, [1, 2], [1, 2]⟩ := by
  decide

/-- C2 as amended: the scan ends with ClosedGop exactly when the track has
samples and `is_idr` classifies every sample flagged as a sync sample as an IDR
picture (1) or as malformed (-1, which is also what it returns on an
unavailable, NULL, sample). Then every sync sample was fetched and passed to
`is_idr`, and the ones classified -1 are the ones reported with "Failed to read
frame": they are skipped and do count towards the verdict. -/
theorem scan_closed_gop_iff (fuel nls : Nat) (track : Track) (r : ScanResult) :
    (scan fuel track nls = Run.ret r ∧ r.verdict = Verdict.ClosedGop) ↔
    (track ≠ [] ∧ (∀ s ∈ track, s.sync = true → idr_or_malformed fuel nls s) ∧
      r = ⟨Verdict.ClosedGop, sync_numbers track 1, malformed_numbers fuel nls track 1⟩) := by
  constructor
  · rintro ⟨hr, hv⟩
    have hne : track ≠ [] := by
      rintro rfl
      have h0 := scan_nil fuel nls
      rw [h0] at hr
      simp only [Run.ret.injEq] at hr
      subst hr
      exact absurd hv (by decide)
    rw [scan_eq_scan_list fuel nls track hne] at hr
    rcases scan_list_ret fuel nls track 1 [] [] r hr with ⟨-, hall⟩ | ⟨ho, -⟩
    · refine ⟨hne, hall, ?_⟩
      rw [scan_list_closed fuel nls track hall] at hr
      simp only [List.nil_append, Run.ret.injEq] at hr
      exact hr.symm
    · rw [hv] at ho
      exact absurd ho (by decide)
  · rintro ⟨hne, hall, rfl⟩
    refine ⟨?_, rfl⟩
    rw [scan_eq_scan_list fuel nls track hne, scan_list_closed fuel nls track hall]
    simp

/-- A report of OpenGop is at the number of a sample of the track. -/
theorem reports_open_gop_at_sample (fuel nls : Nat) (track : Track) (i : Nat)
    (h : reports_open_gop_at (scan fuel track nls) i) :
    ∃ pre s post, track = pre ++ s :: post ∧ i = pre.length + 1 := by
  obtain ⟨r, hr, hv, hlast⟩ := h
  have hne : track ≠ [] := by
    rintro rfl
    rw [scan_nil fuel nls] at hr
    simp only [Run.ret.injEq] at hr
    subst hr
    exact absurd hv (by decide)
  rw [scan_eq_scan_list fuel nls track hne] at hr
  rcases scan_list_ret fuel nls track 1 [] [] r hr with ⟨hc, -⟩ | ⟨-, l1, s, l2, hl, hs, h0, hall⟩
  · rw [hv] at hc
    exact absurd hc (by decide)
  · have hopen := scan_list_open fuel nls l1 l2 s hall hs h0 1 [] []
    rw [← hl, hr] at hopen
    simp only [List.nil_append, Run.ret.injEq] at hopen
    subst hopen
    simp only [List.getLast?_concat, Option.some.injEq] at hlast
    exact ⟨l1, s, l2, hl, by omega⟩

/-- The scan when `is_idr` returns on the sync samples it meets: it reports
OpenGop at sample number `i` (the sample after the samples `pre`, every sample
number 1..N being of this form) exactly when that sample is flagged sync and
`is_idr` classifies it as not IDR (0) while every sync sample before it was
classified as IDR (1) or malformed (-1). The scan stops there: no sample number
above `i` is in the log of fetched samples, and the outcome is the same whatever
the samples after `i` are. A report is never at a number outside 1..N. -/
theorem scan_open_gop_at_first_returned_not_idr (fuel nls : Nat) (pre post : List timeline_sample_t)
    (s : timeline_sample_t) :
    (reports_open_gop_at (scan fuel (pre ++ s :: post) nls) (pre.length + 1) ↔
      s.sync = true ∧ is_idr fuel s.sample nls = Run.ret 0 ∧
      ∀ p ∈ pre, p.sync = true → idr_or_malformed fuel nls p) ∧
    (reports_open_gop_at (scan fuel (pre ++ s :: post) nls) (pre.length + 1) →
      (∀ r, scan fuel (pre ++ s :: post) nls = Run.ret r →
        ∀ j ∈ r.fetched, j ≤ pre.length + 1) ∧
      ∀ post', scan fuel (pre ++ s :: post') nls = scan fuel (pre ++ s :: post) nls) ∧
    (∀ i, reports_open_gop_at (scan fuel (pre ++ s :: post) nls) i →
      1 ≤ i ∧ i ≤ (pre ++ s :: post).length) := by
  have hne : ∀ q : List timeline_sample_t, pre ++ s :: q ≠ [] := by
    intro q
    simp
  have fwd : ∀ q : List timeline_sample_t, s.sync = true → is_idr fuel s.sample nls = Run.ret 0 →
      (∀ p ∈ pre, p.sync = true → idr_or_malformed fuel nls p) →
      scan fuel (pre ++ s :: q) nls
        = Run.ret ⟨Verdict.OpenGop, sync_numbers pre 1 ++ [1 + pre.length],
            malformed_numbers fuel nls pre 1⟩ := by
    intro q hs h0 hall
    rw [scan_eq_scan_list fuel nls _ (hne q), scan_list_open fuel nls pre q s hall hs h0]
    simp
  have back : reports_open_gop_at (scan fuel (pre ++ s :: post) nls) (pre.length + 1) →
      s.sync = true ∧ is_idr fuel s.sample nls = Run.ret 0 ∧
      ∀ p ∈ pre, p.sync = true → idr_or_malformed fuel nls p := by
    rintro ⟨r, hr, hv, hlast⟩
    rw [scan_eq_scan_list fuel nls _ (hne post)] at hr
    rcases scan_list_ret fuel nls _ 1 [] [] r hr with ⟨hc, -⟩ | ⟨-, l1, s', l2, hl, hs', h0, hall⟩
    · rw [hv] at hc
      exact absurd hc (by decide)
    · have hopen := scan_list_open fuel nls l1 l2 s' hall hs' h0 1 [] []
      rw [← hl, hr] at hopen
      simp only [List.nil_append, Run.ret.injEq] at hopen
      subst hopen
      simp only [List.getLast?_concat, Option.some.injEq] at hlast
      have hlen : pre.length = l1.length := by omega
      obtain ⟨hpre, hrest⟩ := List.append_inj hl hlen
      simp only [List.cons.injEq] at hrest
      obtain ⟨hs_eq, -⟩ := hrest
      subst hpre
      subst hs_eq
      exact ⟨hs', h0, hall⟩
  refine ⟨⟨back, ?_⟩, ?_, ?_⟩
  · rintro ⟨hs, h0, hall⟩
    refine ⟨_, fwd post hs h0 hall, rfl, ?_⟩
    simp only [List.getLast?_concat, Option.some.injEq]
    omega
  · intro hrep
    obtain ⟨hs, h0, hall⟩ := back hrep
    constructor
    · intro r hr j hj
      rw [fwd post hs h0 hall] at hr
      simp only [Run.ret.injEq] at hr
      subst hr
      simp only [List.mem_append, List.mem_singleton] at hj
      rcases hj with hj | hj
      · have := sync_numbers_bound pre 1 j hj
        omega
      · omega
    · intro q
      rw [fwd q hs h0 hall, fwd post hs h0 hall]
  · intro i hi
    obtain ⟨l1, s', l2, hl, hi'⟩ := reports_open_gop_at_sample fuel nls _ i hi
    rw [hl, hi']
    simp only [List.length_append, List.length_cons]
    omega

/-- Scenario B of the spec: sync samples at numbers 1, 5 and 9, the one at
number 5 is not an IDR picture; the scan reports OpenGop at 5 and has fetched
the samples 1 and 5 only. -/
theorem scan_open_gop_scenario_B :
    reports_open_gop_at
      (scan 8 ([⟨{}, true, some (sample_of [0, 0, 0, 1, 0x65])⟩, ⟨{}, false, none⟩,
            ⟨{}, false, none⟩, ⟨{}, false, none⟩]
          ++ ⟨{}, true, some (sample_of [0, 0, 0, 1, 0x41])⟩
          :: [⟨{}, false, none⟩, ⟨{}, false, none⟩, ⟨{}, false, none⟩,
            ⟨{}, true, some (sample_of [0, 0, 0, 1, 0x65])⟩]) 4) 5 ∧
    scan 8 [⟨{}, true, some (sample_of [0, 0, 0, 1, 0x65])⟩, ⟨{}, false, none⟩,
        ⟨{}, false, none⟩, ⟨{}, false, none⟩,
        ⟨{}, true, some (sample_of [0, 0, 0, 1, 0x41])⟩,
        ⟨{}, false, none⟩, ⟨{}, false, none⟩, ⟨{}, false, none⟩,
        ⟨{}, true, some (sample_of [0, 0, 0, 1, 0x65])⟩] 4
      = Run.ret ⟨Verdict.OpenGop, [1, 5], []⟩ :=
  ⟨(scan_open_gop_at_first_returned_not_idr 8 4
      [⟨{}, true, some (sample_of [0, 0, 0, 1, 0x65])⟩, ⟨{}, false, none⟩,
        ⟨{}, false, none⟩, ⟨{}, false, none⟩]
      [⟨{}, false, none⟩, ⟨{}, false, none⟩, ⟨{}, false, none⟩,
        ⟨{}, true, some (sample_of [0, 0, 0, 1, 0x65])⟩]
      ⟨{}, true, some (sample_of [0, 0, 0, 1, 0x41])⟩).1.mpr
     ⟨rfl, by decide, by
        intro p hp _
        simp only [List.mem_cons, List.mem_singleton, List.not_mem_nil, or_false] at hp
        rcases hp with rfl | rfl | rfl | rfl
        · exact Or.inl (by decide)
        · exact Or.inr (by decide)
        · exact Or.inr (by decide)
        · exact Or.inr (by decide)⟩,
   by decide⟩

/-! ### A sync sample on which `is_idr` does not return -/

/-- The loop of `is_idr` on the bytes FF FF FF FC 00 with length size 4 uses up
every iteration budget. -/
theorem is_idr_wrapped_sample_out_of_fuel (fuel : Nat) :
    is_idr fuel (some (sample_of [0xFF, 0xFF, 0xFF, 0xFC, 0])) 4 = Run.out_of_fuel := by
  have hbody : is_idr_body [0xFF, 0xFF, 0xFF, 0xFC, 0] 4 5 0 = Step.next 5 0 := by decide
  have hloop : ∀ f, is_idr_loop [0xFF, 0xFF, 0xFF, 0xFC, 0] 4 f 5 0 = Run.out_of_fuel := by
    intro f
    induction f with
    | zero => rfl
    | succ f ih =>
      unfold is_idr_loop
      simp only [hbody]
      simpa using ih
  simpa [is_idr, sample_of] using hloop fuel

/-- C5, at the track of two sync samples FF FF FF FC 00 and 00 00 00 01 41 with
length size 4: `is_idr` never classifies sample 1 as not IDR (it does not
return on it) and classifies sample 2 as not IDR within two iterations, so
sample 2 is the smallest sync sample classified NotIdr; yet the scan is still
inside the call of `is_idr` on sample 1 whatever the iteration budget, sample 2
is never fetched, and no OpenGop is reported at any sample number. -/
theorem scan_hangs_before_first_not_idr :
    (∀ fuel, is_idr fuel (some (sample_of [0xFF, 0xFF, 0xFF, 0xFC, 0])) 4 ≠ Run.ret 0) ∧
    (∀ fuel, 2 ≤ fuel → is_idr fuel (some (sample_of [0, 0, 0, 1, 0x41])) 4 = Run.ret 0) ∧
    (∀ fuel, scan fuel [⟨{}, true, some (sample_of [0xFF, 0xFF, 0xFF, 0xFC, 0])⟩,
        ⟨{}, true, some (sample_of [0, 0, 0, 1, 0x41])⟩] 4 = Run.out_of_fuel) ∧
    (∀ fuel i, ¬ reports_open_gop_at
      (scan fuel [⟨{}, true, some (sample_of [0xFF, 0xFF, 0xFF, 0xFC, 0])⟩,
        ⟨{}, true, some (sample_of [0, 0, 0, 1, 0x41])⟩] 4) i) := by
  have hscan : ∀ fuel, scan fuel [⟨{}, true, some (sample_of [0xFF, 0xFF, 0xFF, 0xFC, 0])⟩,
      ⟨{}, true, some (sample_of [0, 0, 0, 1, 0x41])⟩] 4 = Run.out_of_fuel := by
    intro fuel
    have h1 := is_idr_wrapped_sample_out_of_fuel fuel
    simp [scan, lsmash_get_media_timestamps, scan_loop,
      lsmash_get_sample_property_from_media_timeline,
      lsmash_get_sample_from_media_timeline, h1]
  refine ⟨?_, ?_, hscan, ?_⟩
  · intro fuel
    rw [is_idr_wrapped_sample_out_of_fuel fuel]
    simp
  · intro fuel hfuel
    obtain ⟨f, rfl⟩ : ∃ f, fuel = f + 2 := ⟨fuel - 2, by omega⟩
    have hbody : is_idr_body [0, 0, 0, 1, 0x41] 4 5 0 = Step.next 0 5 := by decide
    simp [is_idr, sample_of, is_idr_loop, hbody]
  · rintro fuel i ⟨r, hr, -, -⟩
    rw [hscan fuel] at hr
    simp at hr

end OpenGop
